/-
  Verification of the inventory file-management module
  (`lib/filesystem.py` of openstack-ansible).

  The Python module is shallowly embedded:
  * the filesystem is an explicit state (`FS`): an association list of
    regular files (path to contents) plus the entries of each tar archive;
  * fallible operations (`SystemExit`, `TypeError`, JSON parse errors,
    missing files) return `Except String`;
  * `json.loads` is embedded as an executable recursive-descent parser
    over a `Json` value type (floats and \u escapes are not modelled, and
    error messages carry no line/column positions; none of the verified
    properties depend on those);
  * `datetime.utcnow()` is an explicit `UTCTime` argument;
  * Python object identity (needed to state that `copy.deepcopy` yields an
    independent copy) is modelled separately by an addressed object heap.
-/
import Mathlib

set_option linter.unusedVariables false

/-! ## Character-list string utilities

`String.startsWith`/`endsWith`/`splitOn` from core are implemented with
iterator loops that do not reduce well inside the kernel, so the few string
primitives the module needs are defined here over `String.data` directly. -/

/-- Is the first character list a leading segment of the second? -/
def leadsWith : List Char → List Char → Bool
  | [], _ => true
  | _ :: _, [] => false
  | a :: as, b :: bs => a == b && leadsWith as bs

/-- `s.startswith(pre)` on Python strings. -/
def strStartsWith (s pre : String) : Bool :=
  leadsWith pre.data s.data

/-- `s.endswith(suf)` on Python strings. -/
def strEndsWith (s suf : String) : Bool :=
  leadsWith suf.data.reverse s.data.reverse

/-- `os.path.join(a, b)` for POSIX paths, as in `posixpath.join`:
an absolute second component discards the first, otherwise the parts are
glued with exactly one separator. -/
def pathJoin (a b : String) : String :=
  if strStartsWith b "/" then b
  else if a.data.isEmpty || strEndsWith a "/" then a ++ b
  else a ++ "/" ++ b

/-- `os.path.expanduser`: a leading `~` is replaced by the home directory
(the `~user` form is not modelled; the module never passes one). -/
def expanduser (home p : String) : String :=
  if p = "~" then home
  else if strStartsWith p "~/" then home ++ String.mk (p.data.drop 1)
  else p

/-- `os.path.basename`: everything after the last slash. -/
def os_basename (p : String) : String :=
  String.mk ((p.data.reverse.takeWhile (fun c => c != '/')).reverse)

/-- The ASCII single-quote character, written via its code point. -/
def squote : Char := Char.ofNat 39

/-- Python `repr` of a plain string: the text between single quotes
(escaping inside the repr is not modelled; the searched paths contain no
quote characters). -/
def pyReprStr (p : String) : String :=
  String.mk [squote] ++ p ++ String.mk [squote]

/-- The comma-separated reprs inside Python `str` of a list of strings. -/
def pyJoinRepr : List String → String
  | [] => ""
  | [p] => pyReprStr p
  | p :: rest => pyReprStr p ++ ", " ++ pyJoinRepr rest

/-- Python `str` of a list of strings, as interpolated by
`'No file found at: \x7b\x7d'.format(search_paths)`. -/
def pyListRepr (xs : List String) : String :=
  "[" ++ pyJoinRepr xs ++ "]"

/-! ## Association-list stores -/

/-- Lookup in an association list (first binding wins). -/
def assocLookup [BEq α] (k : α) : List (α × β) → Option β
  | [] => none
  | (k2, v) :: rest => if k2 == k then some v else assocLookup k rest

/-- Replace the binding of `k` (or append one): the store update used for
both file writes and tar-archive writes. -/
def updateAssoc [BEq α] (k : α) (v : β) : List (α × β) → List (α × β)
  | [] => [(k, v)]
  | (k2, v2) :: rest =>
    if k2 == k then (k, v) :: rest else (k2, v2) :: updateAssoc k v rest

theorem assocLookup_updateAssoc_self [BEq α] [LawfulBEq α] (k : α) (v : β)
    (l : List (α × β)) : assocLookup k (updateAssoc k v l) = some v := by
  induction l with
  | nil => simp [updateAssoc, assocLookup]
  | cons hd tl ih =>
    obtain ⟨k2, v2⟩ := hd
    by_cases hk : k2 = k
    · subst hk; simp [updateAssoc, assocLookup]
    · simp [updateAssoc, assocLookup, hk, ih]

theorem assocLookup_updateAssoc_ne [BEq α] [LawfulBEq α] (k k2 : α) (v : β)
    (l : List (α × β)) (h : k2 ≠ k) :
    assocLookup k2 (updateAssoc k v l) = assocLookup k2 l := by
  induction l with
  | nil => simp [updateAssoc, assocLookup, Ne.symm h]
  | cons hd tl ih =>
    obtain ⟨k3, v3⟩ := hd
    by_cases hk : k3 = k
    · subst hk
      have : ¬ (k3 == k2) = true := by
        simp only [beq_iff_eq]
        intro hcon
        exact h hcon.symm
      simp [updateAssoc, assocLookup, this]
    · by_cases hk2 : k3 = k2
      · subst hk2; simp [updateAssoc, assocLookup, hk]
      · simp [updateAssoc, assocLookup, hk, hk2, ih]

theorem assocLookup_mem [BEq α] [LawfulBEq α] {k : α} {v : β}
    {l : List (α × β)} (h : assocLookup k l = some v) : (k, v) ∈ l := by
  induction l with
  | nil => simp [assocLookup] at h
  | cons hd tl ih =>
    obtain ⟨k2, v2⟩ := hd
    by_cases hk : k2 = k
    · subst hk
      simp [assocLookup] at h
      subst h
      exact List.mem_cons_self _ _
    · simp [assocLookup, hk] at h
      exact List.mem_cons_of_mem _ (ih h)

/-! ## JSON values and `json.loads` -/

/-- JSON values as produced by `json.loads`.  Objects keep their members in
document order (the inventory files the module handles have no duplicate
keys, so association-list equality coincides with Python dict equality). -/
inductive Json where
  | null : Json
  | bool : Bool → Json
  | num : Int → Json
  | str : String → Json
  | arr : List Json → Json
  | obj : List (String × Json) → Json

/-- Python `value is False`: identity with the singleton `False` object.
`json.loads` returns that very singleton for a top-level `false` document,
so on parsed values the identity test coincides with this pattern test. -/
def pyIsFalse : Json → Bool
  | .bool false => true
  | _ => false

mutual

/-- `copy.deepcopy` on a JSON-compatible value: rebuilds every container.
(The aliasing content of `deepcopy` is captured by the heap model below;
on pure values the copy is provably equal to its source.) -/
def deepcopy : Json → Json
  | .null => .null
  | .bool b => .bool b
  | .num n => .num n
  | .str s => .str s
  | .arr xs => .arr (deepcopyList xs)
  | .obj kvs => .obj (deepcopyObj kvs)

def deepcopyList : List Json → List Json
  | [] => []
  | x :: xs => deepcopy x :: deepcopyList xs

def deepcopyObj : List (String × Json) → List (String × Json)
  | [] => []
  | (k, v) :: rest => (k, deepcopy v) :: deepcopyObj rest

end

mutual

theorem deepcopy_eq : (j : Json) → deepcopy j = j
  | .null => by rw [deepcopy]
  | .bool b => by rw [deepcopy]
  | .num n => by rw [deepcopy]
  | .str s => by rw [deepcopy]
  | .arr xs => by rw [deepcopy, deepcopyList_eq xs]
  | .obj kvs => by rw [deepcopy, deepcopyObj_eq kvs]

theorem deepcopyList_eq : (xs : List Json) → deepcopyList xs = xs
  | [] => by rw [deepcopyList]
  | x :: xs => by rw [deepcopyList, deepcopy_eq x, deepcopyList_eq xs]

theorem deepcopyObj_eq : (kvs : List (String × Json)) → deepcopyObj kvs = kvs
  | [] => by rw [deepcopyObj]
  | (k, v) :: rest => by rw [deepcopyObj, deepcopy_eq v, deepcopyObj_eq rest]

end

/-- JSON whitespace. -/
def isJsonWs (c : Char) : Bool :=
  c == ' ' || c == Char.ofNat 9 || c == Char.ofNat 10 || c == Char.ofNat 13

/-- Skip leading whitespace. -/
def skipWs : List Char → List Char
  | [] => []
  | c :: cs => if isJsonWs c then skipWs cs else c :: cs

/-- Translation of a character following a backslash inside a JSON string
(`\uXXXX` escapes are not modelled). -/
def escChar : Char → Option Char
  | '"' => some '"'
  | '\\' => some '\\'
  | '/' => some '/'
  | 'n' => some (Char.ofNat 10)
  | 't' => some (Char.ofNat 9)
  | 'r' => some (Char.ofNat 13)
  | 'b' => some (Char.ofNat 8)
  | 'f' => some (Char.ofNat 12)
  | _ => none

/-- Parse the rest of a JSON string (the opening quote already consumed).
The first argument records whether the previous character was a backslash. -/
def parseStrChars : Bool → List Char → List Char →
    Except String (String × List Char)
  | _, _, [] => .error "Unterminated string"
  | true, acc, e :: cs =>
    match escChar e with
    | some ec => parseStrChars false (ec :: acc) cs
    | none => .error "Invalid escape"
  | false, acc, c :: cs =>
    if c = '"' then .ok (String.mk acc.reverse, cs)
    else if c = '\\' then parseStrChars true acc cs
    else parseStrChars false (c :: acc) cs

/-- Decimal digits to a natural number. -/
def digitsToNat (ds : List Char) : Nat :=
  ds.foldl (fun acc c => acc * 10 + (c.toNat - 48)) 0

/-- Parse an integer JSON number (floats are not modelled: a fraction or
exponent part is rejected; the module's inventories carry integers). -/
def parseNumber (input : List Char) : Except String (Json × List Char) :=
  let st := match input with
    | '-' :: r => (true, r)
    | r => (false, r)
  let ds := st.2.takeWhile Char.isDigit
  let rest := st.2.dropWhile Char.isDigit
  if ds.isEmpty then .error "Expecting value"
  else
    match rest with
    | c :: _ =>
      if c = '.' || c = 'e' || c = 'E' then .error "Float literals are not modelled"
      else .ok (.num (if st.1 then -(digitsToNat ds : Int) else (digitsToNat ds : Int)), rest)
    | [] => .ok (.num (if st.1 then -(digitsToNat ds : Int) else (digitsToNat ds : Int)), rest)

/-- Parse the elements of a non-empty JSON array, given a parser `pv` for a
single value; `fuel` bounds the number of elements. -/
def parseElems (pv : List Char → Except String (Json × List Char)) :
    Nat → List Char → List Json → Except String (List Json × List Char)
  | 0, _, _ => .error "Too many elements"
  | fuel + 1, input, acc =>
    match pv input with
    | .error e => .error e
    | .ok (v, rest) =>
      match skipWs rest with
      | ',' :: rest2 => parseElems pv fuel rest2 (v :: acc)
      | ']' :: rest2 => .ok ((v :: acc).reverse, rest2)
      | _ => .error "Expecting comma or end of array"

/-- Parse the members of a non-empty JSON object, given a parser `pv` for a
single value; `fuel` bounds the number of members. -/
def parseMembers (pv : List Char → Except String (Json × List Char)) :
    Nat → List Char → List (String × Json) →
    Except String (List (String × Json) × List Char)
  | 0, _, _ => .error "Too many members"
  | fuel + 1, input, acc =>
    match skipWs input with
    | '"' :: rest =>
      match parseStrChars false [] rest with
      | .error e => .error e
      | .ok (k, rest2) =>
        match skipWs rest2 with
        | ':' :: rest3 =>
          match pv rest3 with
          | .error e => .error e
          | .ok (v, rest4) =>
            match skipWs rest4 with
            | c :: rest5 =>
              if c = ',' then parseMembers pv fuel rest5 ((k, v) :: acc)
              else if c = Char.ofNat 125 then .ok (((k, v) :: acc).reverse, rest5)
              else .error "Expecting comma or end of object"
            | [] => .error "Expecting comma or end of object"
        | _ => .error "Expecting colon"
    | _ => .error "Expecting property name"

/-- Parse one JSON value; `fuel` bounds the nesting depth. -/
def parseVal : Nat → List Char → Except String (Json × List Char)
  | 0, _ => .error "Too much nesting"
  | fuel + 1, input =>
    match skipWs input with
    | [] => .error "Expecting value"
    | c :: cs =>
      if c = '"' then
        match parseStrChars false [] cs with
        | .error e => .error e
        | .ok (s, rest) => .ok (.str s, rest)
      else if c = '[' then
        match skipWs cs with
        | ']' :: rest => .ok (.arr [], rest)
        | rest =>
          match parseElems (parseVal fuel) (fuel + 1) rest [] with
          | .error e => .error e
          | .ok (vs, rest2) => .ok (.arr vs, rest2)
      else if c = Char.ofNat 123 then
        match skipWs cs with
        | [] => .error "Expecting property name"
        | d :: rest =>
          if d = Char.ofNat 125 then .ok (.obj [], rest)
          else
            match parseMembers (parseVal fuel) (fuel + 1) (d :: rest) [] with
            | .error e => .error e
            | .ok (kvs, rest2) => .ok (.obj kvs, rest2)
      else if c = 't' then
        match cs with
        | 'r' :: 'u' :: 'e' :: rest => .ok (.bool true, rest)
        | _ => .error "Expecting value"
      else if c = 'f' then
        match cs with
        | 'a' :: 'l' :: 's' :: 'e' :: rest => .ok (.bool false, rest)
        | _ => .error "Expecting value"
      else if c = 'n' then
        match cs with
        | 'u' :: 'l' :: 'l' :: rest => .ok (.null, rest)
        | _ => .error "Expecting value"
      else if c = '-' || c.isDigit then parseNumber (c :: cs)
      else .error "Expecting value"

/-- `json.loads` on the raw file contents. -/
def jsonLoads (s : String) : Except String Json :=
  match parseVal (s.length + 1) s.data with
  | .error e => .error e
  | .ok (v, rest) =>
    match skipWs rest with
    | [] => .ok v
    | _ => .error "Extra data"

/-! ## Filesystem state

Regular files are an association list from path to raw contents; tar
archives are kept abstract as their ordered entry lists (the module only
ever appends entries, so the byte-level tar format is irrelevant). -/

/-- One entry of a tar archive: its archive name and its payload. -/
structure TarEntry where
  name : String
  content : String
deriving Repr, DecidableEq

/-- The filesystem state seen by the module. -/
structure FS where
  files : List (String × String)
  tars : List (String × List TarEntry)
deriving Repr, DecidableEq

/-- Contents of the regular file at `p`, if one exists. -/
def FS.lookupFile (fs : FS) (p : String) : Option String :=
  assocLookup p fs.files

/-- `os.path.isfile`. -/
def os_isfile (fs : FS) (p : String) : Bool :=
  (fs.lookupFile p).isSome

/-- `open(p, 'wb').write(c)`: create or overwrite the regular file at `p`. -/
def FS.setFile (fs : FS) (p c : String) : FS :=
  { fs with files := updateAssoc p c fs.files }

/-- The entries of the tar archive at `p` (`tarfile.open(p, 'a')` starts
from an empty archive when the file does not exist yet). -/
def FS.tarEntries (fs : FS) (p : String) : List TarEntry :=
  (assocLookup p fs.tars).getD []

/-- Replace the entry list of the tar archive at `p`. -/
def FS.setTarEntries (fs : FS) (p : String) (es : List TarEntry) : FS :=
  { fs with tars := updateAssoc p es fs.tars }

theorem lookupFile_setFile_self (fs : FS) (p c : String) :
    (fs.setFile p c).lookupFile p = some c := by
  simp [FS.setFile, FS.lookupFile, assocLookup_updateAssoc_self]

theorem lookupFile_setFile_ne (fs : FS) (p q c : String) (h : q ≠ p) :
    (fs.setFile p c).lookupFile q = fs.lookupFile q := by
  simp [FS.setFile, FS.lookupFile, assocLookup_updateAssoc_ne _ _ _ _ h]

theorem tarEntries_setTarEntries_self (fs : FS) (p : String) (es : List TarEntry) :
    (fs.setTarEntries p es).tarEntries p = es := by
  simp [FS.setTarEntries, FS.tarEntries, assocLookup_updateAssoc_self]

theorem tarEntries_setTarEntries_ne (fs : FS) (p q : String) (es : List TarEntry)
    (h : q ≠ p) : (fs.setTarEntries p es).tarEntries q = fs.tarEntries q := by
  simp [FS.setTarEntries, FS.tarEntries, assocLookup_updateAssoc_ne _ _ _ _ h]

theorem files_setTarEntries (fs : FS) (p : String) (es : List TarEntry) :
    (fs.setTarEntries p es).files = fs.files := rfl

/-! ## Time -/

/-- A UTC timestamp as produced by `datetime.datetime.utcnow()`. -/
structure UTCTime where
  year : Nat
  month : Nat
  day : Nat
  hour : Nat
  minute : Nat
  second : Nat
deriving Repr, DecidableEq

/-- Zero-padding to two digits. -/
def pad2 (n : Nat) : String :=
  if n < 10 then "0" ++ toString n else toString n

/-- Zero-padding to four digits. -/
def pad4 (n : Nat) : String :=
  if n < 10 then "000" ++ toString n
  else if n < 100 then "00" ++ toString n
  else if n < 1000 then "0" ++ toString n
  else toString n

/-- `utctime.strftime("%Y%m%d_%H%M%S")`. -/
def strftimeCompact (t : UTCTime) : String :=
  pad4 t.year ++ pad2 t.month ++ pad2 t.day ++ "_" ++
    pad2 t.hour ++ pad2 t.minute ++ pad2 t.second

/-! ## The module itself (`lib/filesystem.py`) -/

/-- `INVENTORY_FILENAME = 'openstack_inventory.json'`. -/
def INVENTORY_FILENAME : String := "openstack_inventory.json"

/-- The tar archive name used by `_make_backup`. -/
def backupTarName : String := "backup_openstack_inventory.tar"

/-- `_get_search_paths(preferred_path, suffix)`: the standard location,
optionally preceded by the expanded preferred path, each joined with the
suffix when a non-empty one is given (Python truthiness: `if suffix:`). -/
def _get_search_paths (home : String) (preferred_path : Option String)
    (suffix : Option String) : List String :=
  let search_paths := [pathJoin "/etc" "openstack_deploy"]
  let search_paths :=
    match preferred_path with
    | some p => expanduser home p :: search_paths
    | none => search_paths
  match suffix with
  | some s => if s.isEmpty then search_paths else search_paths.map (fun p => pathJoin p s)
  | none => search_paths

/-- The `for file_candidate in search_paths` loop of `file_find`. -/
def findFirstFile (fs : FS) : List String → Option String
  | [] => none
  | p :: ps => if os_isfile fs p then some p else findFirstFile fs ps

/-- `file_find(filename, preferred_path, pass_exception)`.
`.ok (some p)` is a returned path, `.ok none` is the returned `False`,
`.error` is the raised `SystemExit` (the code raises when `pass_exception`
is `False`, despite what its docstring says). -/
def file_find (fs : FS) (home filename : String) (preferred_path : Option String)
    (pass_exception : Bool) : Except String (Option String) :=
  let search_paths := _get_search_paths home preferred_path (some filename)
  match findFirstFile fs search_paths with
  | some file_candidate => .ok (some file_candidate)
  | none =>
    if pass_exception = false then
      .error ("No file found at: " ++ pyListRepr search_paths)
    else
      .ok none

/-- `_get_backup_name(basename)`. -/
def _get_backup_name (now : UTCTime) (basename : String) : String :=
  basename ++ "-" ++ strftimeCompact now ++ ".json"

/-- `_make_backup(backup_path, source_file_path)`: append a timestamped
copy of the source file to `backup_openstack_inventory.tar` under
`backup_path`.  A `backup_path` of `None` makes `os.path.join` raise
`TypeError`; a missing source file makes `tar.add` raise. -/
def _make_backup (fs : FS) (now : UTCTime) (backup_path : Option String)
    (source_file_path : String) : Except String FS :=
  match backup_path with
  | none => .error "TypeError: join() argument must be str, not NoneType"
  | some bp =>
    let inventory_backup_file := pathJoin bp backupTarName
    let basename := os_basename source_file_path
    let backup_name := _get_backup_name now basename
    match fs.lookupFile source_file_path with
    | none => .error "FileNotFoundError"
    | some content =>
      .ok (fs.setTarEntries inventory_backup_file
            (fs.tarEntries inventory_backup_file ++ [⟨backup_name, content⟩]))

/-- `load_from_json(filename, preferred_path, pass_exception)`: resolve the
file then `json.loads` its contents.  The returned pair is
`(dictionary, target_file)`; `none` in either component is the Python
`False` sentinel kept when no file was resolved. -/
def load_from_json (fs : FS) (home filename : String)
    (preferred_path : Option String) (pass_exception : Bool) :
    Except String (Option Json × Option String) :=
  match file_find fs home filename preferred_path pass_exception with
  | .error e => .error e
  | .ok none => .ok (none, none)
  | .ok (some target_file) =>
    match fs.lookupFile target_file with
    | none => .error "FileNotFoundError"
    | some contents =>
      match jsonLoads contents with
      | .error e => .error e
      | .ok dictionary => .ok (some dictionary, some target_file)

/-- `load_inventory(preferred_path, default_inv)`.  The guard in the code
is `if inventory is not False`; since `json.loads("false")` returns the
singleton `False` object, a top-level `false` document takes the same
branch as a missing file, which the embedding reflects by testing the
parsed value against `Json.bool false`. -/
def load_inventory (fs : FS) (home : String) (now : UTCTime)
    (preferred_path : Option String) (default_inv : Json) :
    Except String (Json × FS) :=
  match load_from_json fs home INVENTORY_FILENAME preferred_path true with
  | .error e => .error e
  | .ok (some inventory, file_loaded) =>
    if pyIsFalse inventory then .ok (deepcopy default_inv, fs)
    else
      match file_loaded with
      | some path =>
        match _make_backup fs now preferred_path path with
        | .error e => .error e
        | .ok fs2 => .ok (inventory, fs2)
      | none =>
        -- unreachable: `load_from_json` always pairs a parsed value with
        -- its path; `os.path.basename(False)` would raise TypeError
        .error "TypeError: basename() argument must be str, not bool"
  | .ok (none, _) => .ok (deepcopy default_inv, fs)

/-- `save_inventory(inventory_json, save_path)`.  When the save path is
literally the well-known filename the target is resolved by `file_find`
with its default arguments (no preferred path, `pass_exception=False`,
i.e. strict); otherwise the target is `save_path/INVENTORY_FILENAME`.
The write overwrites the whole file. -/
def save_inventory (fs : FS) (home inventory_json save_path : String) :
    Except String FS :=
  if INVENTORY_FILENAME = save_path then
    match file_find fs home save_path none false with
    | .error e => .error e
    | .ok none =>
      -- unreachable: with `pass_exception=False`, `file_find` never
      -- returns `False` (`open(False, 'wb')` would raise anyway)
      .error "TypeError: open() argument must be str, not bool"
    | .ok (some inventory_file) => .ok (fs.setFile inventory_file inventory_json)
  else
    .ok (fs.setFile (pathJoin save_path INVENTORY_FILENAME) inventory_json)

/-! ## Python object heap

To state that `copy.deepcopy(default_inv)` is an *independent* copy —
mutating the returned mapping must not mutate the default — Python objects
are modelled as nodes of an addressed heap: containers hold addresses of
their children, and mutation is an update at an address.  `deepcopyH`
is `copy.deepcopy` on this model: it allocates fresh nodes for the whole
reachable structure (Python shares immutable leaves, but since those are
immutable, copying them does not change any observable behaviour). -/

/-- Immutable leaf values. -/
inductive PrimVal where
  | null : PrimVal
  | boolv : Bool → PrimVal
  | numv : Int → PrimVal
  | strv : String → PrimVal
deriving Repr, DecidableEq

/-- The JSON value of a leaf. -/
def PrimVal.toJson : PrimVal → Json
  | .null => .null
  | .boolv b => .bool b
  | .numv n => .num n
  | .strv s => .str s

/-- One heap object: a leaf, a list, or a dict holding child addresses. -/
inductive HObj where
  | prim : PrimVal → HObj
  | arr : List Nat → HObj
  | dict : List (String × Nat) → HObj
deriving Repr, DecidableEq

/-- The child addresses an object refers to. -/
def HObj.refs : HObj → List Nat
  | .prim _ => []
  | .arr xs => xs
  | .dict kvs => kvs.map Prod.snd

/-- An object heap with an allocation counter: every live address is below
`next`. -/
structure Heap where
  mem : List (Nat × HObj)
  next : Nat
deriving Repr, DecidableEq

/-- The object stored at address `a`. -/
def Heap.lookup (h : Heap) (a : Nat) : Option HObj :=
  assocLookup a h.mem

/-- Allocate a fresh object, returning its address. -/
def Heap.alloc (h : Heap) (o : HObj) : Heap × Nat :=
  ({ mem := (h.next, o) :: h.mem, next := h.next + 1 }, h.next)

/-- Mutate the object at address `a` in place. -/
def Heap.set (h : Heap) (a : Nat) (o : HObj) : Heap :=
  { h with mem := updateAssoc a o h.mem }

/-- Executable well-formedness: every stored address and every child
reference is below the allocation counter. -/
def Heap.WFb (h : Heap) : Bool :=
  h.mem.all (fun e => decide (e.1 < h.next) && e.2.refs.all (fun r => decide (r < h.next)))

/-- Every object reachable by lookup lives below `n` and refers only below
`n`. -/
def Heap.Bounded (h : Heap) (n : Nat) : Prop :=
  ∀ a o, h.lookup a = some o → a < n ∧ ∀ r ∈ o.refs, r < n

theorem Heap.WFb_bounded {h : Heap} (hw : h.WFb = true) : h.Bounded h.next := by
  intro a o hl
  have hmem : (a, o) ∈ h.mem := assocLookup_mem hl
  have := (List.all_eq_true.mp hw) _ hmem
  simp only [Bool.and_eq_true, decide_eq_true_eq, List.all_eq_true] at this
  exact ⟨this.1, fun r hr => by
    have := this.2 r hr
    simpa using this⟩

theorem Heap.lookup_alloc_self (h : Heap) (o : HObj) :
    (h.alloc o).1.lookup h.next = some o := by
  simp [Heap.alloc, Heap.lookup, assocLookup]

theorem Heap.lookup_alloc_ne (h : Heap) (o : HObj) (c : Nat) (hc : c ≠ h.next) :
    (h.alloc o).1.lookup c = h.lookup c := by
  have : ¬ (h.next == c) = true := by
    simp only [beq_iff_eq]
    intro hcon
    exact hc hcon.symm
  simp [Heap.alloc, Heap.lookup, assocLookup, this]

theorem Heap.next_alloc (h : Heap) (o : HObj) : (h.alloc o).1.next = h.next + 1 := rfl

theorem Heap.lookup_set_ne (h : Heap) (a c : Nat) (o : HObj) (hc : c ≠ a) :
    (h.set a o).lookup c = h.lookup c := by
  simp [Heap.set, Heap.lookup, assocLookup_updateAssoc_ne _ _ _ _ hc]

/-- Deep values of the children of a node, given a valuation `f` for one
child. -/
def valChildren (f : Heap → Nat → Option Json) : Heap → List Nat → Option (List Json)
  | _, [] => some []
  | h, a :: as =>
    match f h a with
    | none => none
    | some v =>
      match valChildren f h as with
      | none => none
      | some vs => some (v :: vs)

/-- The JSON value of the object graph rooted at an address, to depth
`fuel`. -/
def deepVal : Nat → Heap → Nat → Option Json
  | 0, _, _ => none
  | fuel + 1, h, a =>
    match h.lookup a with
    | none => none
    | some (.prim v) => some v.toJson
    | some (.arr xs) =>
      match valChildren (deepVal fuel) h xs with
      | none => none
      | some vs => some (.arr vs)
    | some (.dict kvs) =>
      match valChildren (deepVal fuel) h (kvs.map Prod.snd) with
      | none => none
      | some vs => some (.obj (List.zip (kvs.map Prod.fst) vs))

/-- Copy each child address in turn, threading the heap, given a copier
`f` for one child. -/
def copyChildren (f : Heap → Nat → Option (Heap × Nat)) :
    Heap → List Nat → Option (Heap × List Nat)
  | h, [] => some (h, [])
  | h, a :: as =>
    match f h a with
    | none => none
    | some (h2, b) =>
      match copyChildren f h2 as with
      | none => none
      | some (h3, bs) => some (h3, b :: bs)

/-- `copy.deepcopy` on the object heap: rebuild the graph rooted at `a`
out of freshly allocated nodes, to depth `fuel`. -/
def deepcopyH : Nat → Heap → Nat → Option (Heap × Nat)
  | 0, _, _ => none
  | fuel + 1, h, a =>
    match h.lookup a with
    | none => none
    | some (.prim v) => some (h.alloc (.prim v))
    | some (.arr xs) =>
      match copyChildren (deepcopyH fuel) h xs with
      | none => none
      | some (h2, ys) => some (h2.alloc (.arr ys))
    | some (.dict kvs) =>
      match copyChildren (deepcopyH fuel) h (kvs.map Prod.snd) with
      | none => none
      | some (h2, ys) => some (h2.alloc (.dict (List.zip (kvs.map Prod.fst) ys)))

/-- The addresses of the children reached through `f`. -/
def reachChildren (f : Heap → Nat → List Nat) : Heap → List Nat → List Nat
  | _, [] => []
  | h, a :: as => f h a ++ reachChildren f h as

/-- The addresses reachable from `a`, to depth `fuel` (the root is always
included). -/
def reachAddrs : Nat → Heap → Nat → List Nat
  | 0, _, a => [a]
  | fuel + 1, h, a =>
    a :: (match h.lookup a with
          | none => []
          | some o => reachChildren (reachAddrs fuel) h o.refs)

theorem valChildren_ext (g1 g2 : Heap → Nat → Option Json) (h1 h2 : Heap)
    (xs : List Nat) (hx : ∀ x ∈ xs, g2 h2 x = g1 h1 x) :
    valChildren g2 h2 xs = valChildren g1 h1 xs := by
  induction xs with
  | nil => rfl
  | cons x rest ih =>
    simp only [valChildren, hx x (List.mem_cons_self x rest),
      ih (fun y hy => hx y (List.mem_cons_of_mem _ hy))]

/-- The deep value at a root below `n` only depends on the heap below `n`. -/
theorem deepVal_agree : ∀ (fuel : Nat) (h1 h2 : Heap) (n a : Nat),
    (∀ c, c < n → h2.lookup c = h1.lookup c) → h1.Bounded n → a < n →
    deepVal fuel h2 a = deepVal fuel h1 a := by
  intro fuel
  induction fuel with
  | zero => intro h1 h2 n a hagree hb ha; rfl
  | succ f ih =>
    intro h1 h2 n a hagree hb ha
    have hla : h2.lookup a = h1.lookup a := hagree a ha
    simp only [deepVal, hla]
    cases hobj : h1.lookup a with
    | none => rfl
    | some o =>
      have hrefs := (hb a o hobj).2
      cases o with
      | prim v => rfl
      | arr xs =>
        have hch : valChildren (deepVal f) h2 xs = valChildren (deepVal f) h1 xs :=
          valChildren_ext _ _ _ _ _
            (fun x hx => ih h1 h2 n x hagree hb (hrefs x (by simpa [HObj.refs] using hx)))
        dsimp only
        rw [hch]
      | dict kvs =>
        have hch : valChildren (deepVal f) h2 (kvs.map Prod.snd) =
            valChildren (deepVal f) h1 (kvs.map Prod.snd) :=
          valChildren_ext _ _ _ _ _
            (fun x hx => ih h1 h2 n x hagree hb (hrefs x (by simpa [HObj.refs] using hx)))
        dsimp only
        rw [hch]

/-- What a successful `deepcopyH fuel h a = some (h2, b)` guarantees:
the heap only grew by fresh nodes, the copy's root is fresh, fresh nodes
refer only to fresh nodes, and the copy has the same deep value. -/
structure CopyOk (h : Heap) (a fuel : Nat) (h2 : Heap) (b : Nat) : Prop where
  next_le : h.next ≤ h2.next
  pres : ∀ c, c < h.next → h2.lookup c = h.lookup c
  fresh_root : h.next ≤ b
  root_lt : b < h2.next
  bounded : h2.Bounded h2.next
  fresh_refs : ∀ c o, h2.lookup c = some o → h.next ≤ c → ∀ r ∈ o.refs, h.next ≤ r
  val_eq : deepVal fuel h2 b = deepVal fuel h a

/-- The list version of `CopyOk`, for `copyChildren`. -/
structure CopyListOk (h : Heap) (xs : List Nat) (fuel : Nat) (h3 : Heap)
    (ys : List Nat) : Prop where
  next_le : h.next ≤ h3.next
  pres : ∀ c, c < h.next → h3.lookup c = h.lookup c
  fresh_elems : ∀ y ∈ ys, h.next ≤ y ∧ y < h3.next
  len_eq : ys.length = xs.length
  bounded : h3.Bounded h3.next
  fresh_refs : ∀ c o, h3.lookup c = some o → h.next ≤ c → ∀ r ∈ o.refs, h.next ≤ r
  vals_eq : valChildren (deepVal fuel) h3 ys = valChildren (deepVal fuel) h xs

/-- An allocation on top of a successful `copyChildren` run satisfies
`CopyOk` whenever the allocated node's references are exactly the fresh
copies (factored out of the `arr` and `dict` cases). -/
theorem copyOk_of_alloc (h hc : Heap) (a fuel : Nat) (onew : HObj)
    {xs ys : List Nat} (hlist : CopyListOk h xs fuel hc ys)
    (hrefs_eq : onew.refs = ys)
    (hval : deepVal (fuel + 1) (hc.alloc onew).1 hc.next = deepVal (fuel + 1) h a) :
    CopyOk h a (fuel + 1) (hc.alloc onew).1 hc.next := by
  have hle := hlist.next_le
  refine ⟨?_, ?_, hle, ?_, ?_, ?_, hval⟩
  · simp only [Heap.next_alloc]
    omega
  · intro c hcn
    have hne : c ≠ hc.next := by omega
    rw [Heap.lookup_alloc_ne hc onew c hne]
    exact hlist.pres c hcn
  · simp [Heap.next_alloc]
  · intro c o hl
    by_cases hceq : c = hc.next
    · subst hceq
      rw [Heap.lookup_alloc_self] at hl
      obtain rfl : onew = o := by injection hl
      refine ⟨by simp [Heap.next_alloc], ?_⟩
      intro r hr
      rw [hrefs_eq] at hr
      have := (hlist.fresh_elems r hr).2
      simp only [Heap.next_alloc]
      omega
    · rw [Heap.lookup_alloc_ne hc onew c hceq] at hl
      have hbo := hlist.bounded c o hl
      refine ⟨by simp only [Heap.next_alloc]; omega, ?_⟩
      intro r hr
      have := hbo.2 r hr
      simp only [Heap.next_alloc]
      omega
  · intro c o hl hge
    by_cases hceq : c = hc.next
    · subst hceq
      rw [Heap.lookup_alloc_self] at hl
      obtain rfl : onew = o := by injection hl
      intro r hr
      rw [hrefs_eq] at hr
      exact (hlist.fresh_elems r hr).1
    · rw [Heap.lookup_alloc_ne hc onew c hceq] at hl
      exact hlist.fresh_refs c o hl hge

/-- Correctness of `deepcopyH` and `copyChildren`, by induction on fuel. -/
theorem deepcopy_spec : ∀ fuel : Nat,
    (∀ h a h2 b, h.Bounded h.next → deepcopyH fuel h a = some (h2, b) →
      CopyOk h a fuel h2 b) ∧
    (∀ xs h h3 ys, h.Bounded h.next → (∀ x ∈ xs, x < h.next) →
      copyChildren (deepcopyH fuel) h xs = some (h3, ys) →
      CopyListOk h xs fuel h3 ys) := by
  intro fuel
  induction fuel with
  | zero =>
    constructor
    · intro h a h2 b hb hcopy
      simp [deepcopyH] at hcopy
    · intro xs h h3 ys hb hxs hcc
      cases xs with
      | nil =>
        simp only [copyChildren] at hcc
        injection hcc with hpair
        obtain ⟨rfl, rfl⟩ : h = h3 ∧ ([] : List Nat) = ys :=
          ⟨congrArg Prod.fst hpair, congrArg Prod.snd hpair⟩
        exact ⟨le_refl _, fun c hcn => rfl, by simp, rfl, hb,
          fun c o hl hge => absurd (hb c o hl).1 (by omega), rfl⟩
      | cons x rest =>
        simp [copyChildren, deepcopyH] at hcc
  | succ f ih =>
    obtain ⟨ihP, ihQ⟩ := ih
    have hP : ∀ h a h2 b, h.Bounded h.next → deepcopyH (f + 1) h a = some (h2, b) →
        CopyOk h a (f + 1) h2 b := by
      intro h a h2 b hb hcopy
      rw [deepcopyH] at hcopy
      cases hla : h.lookup a with
      | none => rw [hla] at hcopy; simp at hcopy
      | some o =>
        rw [hla] at hcopy
        have hrefs := (hb a o hla).2
        cases o with
        | prim v =>
          simp only at hcopy
          injection hcopy with hpair
          obtain ⟨rfl, rfl⟩ : (h.alloc (.prim v)).1 = h2 ∧ h.next = b :=
            ⟨congrArg Prod.fst hpair, congrArg Prod.snd hpair⟩
          refine ⟨by simp [Heap.next_alloc], ?_, le_refl _, by simp [Heap.next_alloc],
            ?_, ?_, ?_⟩
          · intro c hcn
            exact Heap.lookup_alloc_ne h _ c (by omega)
          · intro c o2 hl
            by_cases hceq : c = h.next
            · subst hceq
              rw [Heap.lookup_alloc_self] at hl
              obtain rfl : HObj.prim v = o2 := by injection hl
              exact ⟨by simp [Heap.next_alloc], by simp [HObj.refs]⟩
            · rw [Heap.lookup_alloc_ne h _ c hceq] at hl
              have hbo := hb c o2 hl
              refine ⟨by simp only [Heap.next_alloc]; omega, ?_⟩
              intro r hr
              have := hbo.2 r hr
              simp only [Heap.next_alloc]
              omega
          · intro c o2 hl hge
            by_cases hceq : c = h.next
            · subst hceq
              rw [Heap.lookup_alloc_self] at hl
              obtain rfl : HObj.prim v = o2 := by injection hl
              simp [HObj.refs]
            · rw [Heap.lookup_alloc_ne h _ c hceq] at hl
              exact absurd (hb c o2 hl).1 (by omega)
          · rw [deepVal, Heap.lookup_alloc_self, deepVal, hla]
        | arr xs =>
          simp only at hcopy
          cases hcc : copyChildren (deepcopyH f) h xs with
          | none => rw [hcc] at hcopy; simp at hcopy
          | some pr =>
            obtain ⟨hc, ys⟩ := pr
            rw [hcc] at hcopy
            simp only at hcopy
            injection hcopy with hpair
            obtain ⟨rfl, rfl⟩ : (hc.alloc (.arr ys)).1 = h2 ∧ hc.next = b :=
              ⟨congrArg Prod.fst hpair, congrArg Prod.snd hpair⟩
            have hxs : ∀ x ∈ xs, x < h.next :=
              fun x hx => hrefs x (by simpa [HObj.refs] using hx)
            have hlist := ihQ xs h hc ys hb hxs hcc
            refine copyOk_of_alloc h hc a f (.arr ys) hlist (by simp [HObj.refs]) ?_
            rw [deepVal, Heap.lookup_alloc_self, deepVal, hla]
            dsimp only
            have hext : valChildren (deepVal f) (hc.alloc (.arr ys)).1 ys =
                valChildren (deepVal f) hc ys := by
              refine valChildren_ext _ _ _ _ _ (fun y hy => ?_)
              have hylt := (hlist.fresh_elems y hy).2
              exact deepVal_agree f hc _ hc.next y
                (fun c hcn => Heap.lookup_alloc_ne hc _ c (by omega))
                hlist.bounded hylt
            rw [hext, hlist.vals_eq]
        | dict kvs =>
          simp only at hcopy
          cases hcc : copyChildren (deepcopyH f) h (kvs.map Prod.snd) with
          | none => rw [hcc] at hcopy; simp at hcopy
          | some pr =>
            obtain ⟨hc, ys⟩ := pr
            rw [hcc] at hcopy
            simp only at hcopy
            injection hcopy with hpair
            obtain ⟨rfl, rfl⟩ :
                (hc.alloc (.dict (List.zip (kvs.map Prod.fst) ys))).1 = h2 ∧ hc.next = b :=
              ⟨congrArg Prod.fst hpair, congrArg Prod.snd hpair⟩
            have hxs : ∀ x ∈ kvs.map Prod.snd, x < h.next :=
              fun x hx => hrefs x (by simpa [HObj.refs] using hx)
            have hlist := ihQ (kvs.map Prod.snd) h hc ys hb hxs hcc
            have hsnd : (List.zip (kvs.map Prod.fst) ys).map Prod.snd = ys :=
              List.map_snd_zip _ _ (by rw [hlist.len_eq]; simp)
            have hfst : (List.zip (kvs.map Prod.fst) ys).map Prod.fst = kvs.map Prod.fst :=
              List.map_fst_zip _ _ (by rw [hlist.len_eq]; simp)
            refine copyOk_of_alloc h hc a f _ hlist (by simp [HObj.refs, hsnd]) ?_
            rw [deepVal, Heap.lookup_alloc_self, deepVal, hla]
            dsimp only
            rw [hsnd, hfst]
            have hext : valChildren (deepVal f)
                (hc.alloc (.dict (List.zip (kvs.map Prod.fst) ys))).1 ys =
                valChildren (deepVal f) hc ys := by
              refine valChildren_ext _ _ _ _ _ (fun y hy => ?_)
              have hylt := (hlist.fresh_elems y hy).2
              exact deepVal_agree f hc _ hc.next y
                (fun c hcn => Heap.lookup_alloc_ne hc _ c (by omega))
                hlist.bounded hylt
            rw [hext, hlist.vals_eq]
    refine ⟨hP, ?_⟩
    intro xs
    induction xs with
    | nil =>
      intro h h3 ys hb hxs hcc
      simp only [copyChildren] at hcc
      injection hcc with hpair
      obtain ⟨rfl, rfl⟩ : h = h3 ∧ ([] : List Nat) = ys :=
        ⟨congrArg Prod.fst hpair, congrArg Prod.snd hpair⟩
      exact ⟨le_refl _, fun c hcn => rfl, by simp, rfl, hb,
        fun c o hl hge => absurd (hb c o hl).1 (by omega), rfl⟩
    | cons x rest ih2 =>
      intro h h3 ys hb hxs hcc
      simp only [copyChildren] at hcc
      cases hhead : deepcopyH (f + 1) h x with
      | none => rw [hhead] at hcc; simp at hcc
      | some pr =>
        obtain ⟨hA, bA⟩ := pr
        rw [hhead] at hcc
        simp only at hcc
        cases htail : copyChildren (deepcopyH (f + 1)) hA rest with
        | none => rw [htail] at hcc; simp at hcc
        | some pr2 =>
          obtain ⟨h3c, bs⟩ := pr2
          rw [htail] at hcc
          simp only at hcc
          injection hcc with hpair
          obtain ⟨rfl, rfl⟩ : h3c = h3 ∧ bA :: bs = ys :=
            ⟨congrArg Prod.fst hpair, congrArg Prod.snd hpair⟩
          have hpa := hP h x hA bA hb hhead
          have htl := ih2 hA h3c bs hpa.bounded
            (fun y hy => lt_of_lt_of_le (hxs y (List.mem_cons_of_mem _ hy)) hpa.next_le)
            htail
          have hxlt : x < h.next := hxs x (List.mem_cons_self x rest)
          refine ⟨le_trans hpa.next_le htl.next_le, ?_, ?_, by simp [htl.len_eq],
            htl.bounded, ?_, ?_⟩
          · intro c hcn
            rw [htl.pres c (lt_of_lt_of_le hcn hpa.next_le), hpa.pres c hcn]
          · intro y hy
            rcases List.mem_cons.mp hy with rfl | hy2
            · exact ⟨hpa.fresh_root, lt_of_lt_of_le hpa.root_lt htl.next_le⟩
            · have := htl.fresh_elems y hy2
              exact ⟨le_trans hpa.next_le this.1, this.2⟩
          · intro c o hl hge
            by_cases hclt : c < hA.next
            · rw [htl.pres c hclt] at hl
              exact hpa.fresh_refs c o hl hge
            · have := htl.fresh_refs c o hl (by omega)
              intro r hr
              exact le_trans hpa.next_le (this r hr)
          · have hhd : deepVal (f + 1) h3c bA = deepVal (f + 1) h x := by
              rw [deepVal_agree (f + 1) hA h3c hA.next bA htl.pres hpa.bounded hpa.root_lt]
              exact hpa.val_eq
            have htlvals : valChildren (deepVal (f + 1)) h3c bs =
                valChildren (deepVal (f + 1)) h rest := by
              rw [htl.vals_eq]
              refine valChildren_ext _ _ _ _ _ (fun y hy => ?_)
              exact deepVal_agree (f + 1) h hA h.next y hpa.pres hb
                (hxs y (List.mem_cons_of_mem _ hy))
            simp only [valChildren]
            rw [hhd, htlvals]

theorem mem_reachChildren (g : Heap → Nat → List Nat) (h : Heap) (xs : List Nat)
    (b : Nat) (hb : b ∈ reachChildren g h xs) : ∃ x ∈ xs, b ∈ g h x := by
  induction xs with
  | nil => simp [reachChildren] at hb
  | cons x rest ih =>
    simp only [reachChildren, List.mem_append] at hb
    rcases hb with hb | hb
    · exact ⟨x, List.mem_cons_self x rest, hb⟩
    · obtain ⟨y, hy, hby⟩ := ih hb
      exact ⟨y, List.mem_cons_of_mem _ hy, hby⟩

/-- In a heap whose nodes at addresses `≥ lo` refer only to addresses
`≥ lo`, everything reachable from a root `≥ lo` is `≥ lo`. -/
theorem reach_fresh : ∀ (fuel : Nat) (h : Heap) (lo a : Nat),
    lo ≤ a → (∀ c o, h.lookup c = some o → lo ≤ c → ∀ r ∈ o.refs, lo ≤ r) →
    ∀ b ∈ reachAddrs fuel h a, lo ≤ b := by
  intro fuel
  induction fuel with
  | zero =>
    intro h lo a ha href b hb
    simp only [reachAddrs, List.mem_singleton] at hb
    subst hb
    exact ha
  | succ f ih =>
    intro h lo a ha href b hb
    simp only [reachAddrs, List.mem_cons] at hb
    rcases hb with rfl | hb
    · exact ha
    · cases hla : h.lookup a with
      | none => rw [hla] at hb; simp at hb
      | some o =>
        rw [hla] at hb
        obtain ⟨x, hx, hbx⟩ := mem_reachChildren _ _ _ _ hb
        exact ih h lo x (href a o hla ha x hx) href b hbx

/-- Mutating any address at or above `n` leaves the deep value of every
root below `n` unchanged, provided the heap is bounded by `n`. -/
theorem deepVal_set_fresh (h : Heap) (n c : Nat) (o : HObj) (a fuel : Nat)
    (hb : h.Bounded n) (hcge : n ≤ c) (ha : a < n) :
    deepVal fuel (h.set c o) a = deepVal fuel h a := by
  refine deepVal_agree fuel h (h.set c o) n a (fun e he => ?_) hb ha
  exact Heap.lookup_set_ne h c e o (by omega)

/-! ## Helper lemmas about the module functions -/

theorem findFirstFile_none (fs : FS) (ps : List String)
    (h : ∀ p ∈ ps, os_isfile fs p = false) : findFirstFile fs ps = none := by
  induction ps with
  | nil => rfl
  | cons p rest ih =>
    simp only [findFirstFile, h p (List.mem_cons_self p rest), Bool.false_eq_true,
      if_false]
    exact ih (fun q hq => h q (List.mem_cons_of_mem _ hq))

theorem file_find_absent_sentinel (fs : FS) (home filename : String)
    (pp : Option String)
    (habs : ∀ p ∈ _get_search_paths home pp (some filename), os_isfile fs p = false) :
    file_find fs home filename pp true = .ok none := by
  simp [file_find, findFirstFile_none fs _ habs]

theorem file_find_absent_strict (fs : FS) (home filename : String)
    (pp : Option String)
    (habs : ∀ p ∈ _get_search_paths home pp (some filename), os_isfile fs p = false) :
    file_find fs home filename pp false =
      .error ("No file found at: " ++ pyListRepr (_get_search_paths home pp (some filename))) := by
  simp [file_find, findFirstFile_none fs _ habs]

theorem load_from_json_absent (fs : FS) (home filename : String)
    (pp : Option String)
    (habs : ∀ p ∈ _get_search_paths home pp (some filename), os_isfile fs p = false) :
    load_from_json fs home filename pp true = .ok (none, none) := by
  simp [load_from_json, file_find_absent_sentinel fs home filename pp habs]

theorem load_from_json_found (fs : FS) (home filename : String)
    (pp : Option String) (pe : Bool) (p contents : String) (d : Json)
    (hfind : file_find fs home filename pp pe = .ok (some p))
    (hread : fs.lookupFile p = some contents)
    (hparse : jsonLoads contents = .ok d) :
    load_from_json fs home filename pp pe = .ok (some d, some p) := by
  simp [load_from_json, hfind, hread, hparse]

theorem load_from_json_parse_error (fs : FS) (home filename : String)
    (pp : Option String) (pe : Bool) (p contents e : String)
    (hfind : file_find fs home filename pp pe = .ok (some p))
    (hread : fs.lookupFile p = some contents)
    (hparse : jsonLoads contents = .error e) :
    load_from_json fs home filename pp pe = .error e := by
  simp [load_from_json, hfind, hread, hparse]

theorem make_backup_ok (fs : FS) (now : UTCTime) (bp src contents : String)
    (hread : fs.lookupFile src = some contents) :
    _make_backup fs now (some bp) src =
      .ok (fs.setTarEntries (pathJoin bp backupTarName)
        (fs.tarEntries (pathJoin bp backupTarName) ++
          [⟨_get_backup_name now (os_basename src), contents⟩])) := by
  simp [_make_backup, hread]

/-- Each member of a string list occurs verbatim inside `pyJoinRepr`. -/
theorem pyJoinRepr_mem (p : String) : ∀ (xs : List String), p ∈ xs →
    ∃ pre post : List Char, (pyJoinRepr xs).data = pre ++ p.data ++ post := by
  intro xs
  induction xs with
  | nil => intro h; simp at h
  | cons q rest ih =>
    intro hmem
    rcases List.mem_cons.mp hmem with rfl | hmem2
    · cases rest with
      | nil =>
        refine ⟨[squote], [squote], ?_⟩
        simp [pyJoinRepr, pyReprStr, String.data_append]
      | cons r rest2 =>
        refine ⟨[squote], [squote] ++ (", " ++ pyJoinRepr (r :: rest2)).data, ?_⟩
        simp [pyJoinRepr, pyReprStr, String.data_append, List.append_assoc]
    · have hne : rest ≠ [] := List.ne_nil_of_mem hmem2
      obtain ⟨pre, post, hpre⟩ := ih hmem2
      cases rest with
      | nil => simp at hmem2
      | cons r rest2 =>
        refine ⟨(pyReprStr q ++ ", ").data ++ pre, post, ?_⟩
        simp only [pyJoinRepr, String.data_append, hpre]
        simp [String.data_append, List.append_assoc]

/-- Each member of a string list occurs verbatim inside the Python `str`
of the list. -/
theorem pyListRepr_mem (p : String) (xs : List String) (hmem : p ∈ xs) :
    ∃ pre post : List Char, (pyListRepr xs).data = pre ++ p.data ++ post := by
  obtain ⟨pre, post, hpre⟩ := pyJoinRepr_mem p xs hmem
  refine ⟨"[".data ++ pre, post ++ "]".data, ?_⟩
  simp [pyListRepr, String.data_append, hpre, List.append_assoc]

/-! ## Concrete fixtures used by the witnesses and counterexamples -/

/-- An empty filesystem. -/
def fsEmpty : FS := ⟨[], []⟩

/-- A filesystem whose only file is an inventory in the standard directory
containing the document `\x7b"x": 1\x7d`. -/
def fsStd : FS :=
  ⟨[("/etc/openstack_deploy/openstack_inventory.json", "\x7b\"x\": 1\x7d")], []⟩

/-- A filesystem with an inventory in the preferred directory `/root/od`. -/
def fsPref : FS :=
  ⟨[("/root/od/openstack_inventory.json", "\x7b\"x\": 1\x7d")], []⟩

/-- A filesystem whose inventory in the standard directory is malformed. -/
def fsBad : FS :=
  ⟨[("/etc/openstack_deploy/openstack_inventory.json", "\x7b")], []⟩

/-- A filesystem whose inventory document is the literal `false`. -/
def fsFalse : FS :=
  ⟨[("/etc/openstack_deploy/openstack_inventory.json", "false")], []⟩

/-- A fixed timestamp. -/
def t0 : UTCTime := ⟨2026, 10, 12, 3, 4, 5⟩

/-- The default inventory skeleton from the spec example. -/
def invDefault : Json := .obj [("all", .obj [("hosts", .obj [])])]

/-- A one-node heap holding an empty dict at address 0. -/
def heap0 : Heap := ⟨[(0, .dict [])], 1⟩

/-! ## Search-path shape lemmas -/

theorem search_paths_none_inv (home : String) :
    _get_search_paths home none (some INVENTORY_FILENAME) =
      [pathJoin (pathJoin "/etc" "openstack_deploy") INVENTORY_FILENAME] := rfl

theorem search_paths_some_inv (home pp : String) :
    _get_search_paths home (some pp) (some INVENTORY_FILENAME) =
      [pathJoin (expanduser home pp) INVENTORY_FILENAME,
       pathJoin (pathJoin "/etc" "openstack_deploy") INVENTORY_FILENAME] := rfl

/-! ## Claim theorems -/

/-- C3: for every filename absent from both the preferred directory and
the standard directory, `file_find` in non-strict mode
(`pass_exception=True`) returns the no-match sentinel `False` without
raising, and in strict mode (`pass_exception=False`) raises a fatal
`SystemExit` whose message lists every searched path. -/
theorem fileFind_absent_modes (fs : FS) (home filename : String) (pp : Option String)
    (habs : ∀ p ∈ _get_search_paths home pp (some filename), os_isfile fs p = false) :
    file_find fs home filename pp true = .ok none ∧
    ∃ msg, file_find fs home filename pp false = .error msg ∧
      ∀ p ∈ _get_search_paths home pp (some filename),
        ∃ pre post : List Char, msg.data = pre ++ p.data ++ post := by
  refine ⟨file_find_absent_sentinel fs home filename pp habs,
    _, file_find_absent_strict fs home filename pp habs, ?_⟩
  intro p hp
  obtain ⟨pre, post, hpre⟩ := pyListRepr_mem p _ hp
  exact ⟨"No file found at: ".data ++ pre, post,
    by simp [String.data_append, hpre, List.append_assoc]⟩

theorem fileFind_absent_modes_witness :
    (∀ p ∈ _get_search_paths "/root" (some "/root/od") (some INVENTORY_FILENAME),
      os_isfile fsEmpty p = false) ∧
    (file_find fsEmpty "/root" INVENTORY_FILENAME (some "/root/od") true = .ok none ∧
     ∃ msg, file_find fsEmpty "/root" INVENTORY_FILENAME (some "/root/od") false = .error msg ∧
       ∀ p ∈ _get_search_paths "/root" (some "/root/od") (some INVENTORY_FILENAME),
         ∃ pre post : List Char, msg.data = pre ++ p.data ++ post) :=
  ⟨by decide,
   fileFind_absent_modes fsEmpty "/root" INVENTORY_FILENAME (some "/root/od") (by decide)⟩

/-- C4: for every filename that exists as a regular file in the
caller-supplied preferred directory, `file_find` returns the
preferred-directory candidate, in either mode, because the candidates are
searched in the order [preferred directory, standard directory] and the
first existing file wins. -/
theorem fileFind_preferred_wins (fs : FS) (home filename pp : String)
    (hname : filename.isEmpty = false)
    (hpref : os_isfile fs (pathJoin (expanduser home pp) filename) = true) :
    _get_search_paths home (some pp) (some filename) =
      [pathJoin (expanduser home pp) filename,
       pathJoin (pathJoin "/etc" "openstack_deploy") filename] ∧
    pathJoin "/etc" "openstack_deploy" = "/etc/openstack_deploy" ∧
    ∀ pe, file_find fs home filename (some pp) pe =
      .ok (some (pathJoin (expanduser home pp) filename)) := by
  refine ⟨by simp [_get_search_paths, hname], rfl, ?_⟩
  intro pe
  simp [file_find, _get_search_paths, hname, findFirstFile, hpref]

theorem fileFind_preferred_wins_witness :
    (INVENTORY_FILENAME.isEmpty = false ∧
     os_isfile fsPref (pathJoin (expanduser "/root" "/root/od") INVENTORY_FILENAME) = true) ∧
    (_get_search_paths "/root" (some "/root/od") (some INVENTORY_FILENAME) =
      [pathJoin (expanduser "/root" "/root/od") INVENTORY_FILENAME,
       pathJoin (pathJoin "/etc" "openstack_deploy") INVENTORY_FILENAME] ∧
     pathJoin "/etc" "openstack_deploy" = "/etc/openstack_deploy" ∧
     ∀ pe, file_find fsPref "/root" INVENTORY_FILENAME (some "/root/od") pe =
       .ok (some (pathJoin (expanduser "/root" "/root/od") INVENTORY_FILENAME))) :=
  ⟨⟨rfl, rfl⟩,
   fileFind_preferred_wins fsPref "/root" INVENTORY_FILENAME "/root/od" rfl rfl⟩

/-- C5: for every file that exists but contains malformed JSON,
`load_from_json` (and hence `load_inventory`) propagates the parse error
unmodified as a fatal error, and never returns the no-data sentinel or
the default skeleton: "not found" is always distinguished from "found but
unreadable". -/
theorem malformed_json_fatal (fs : FS) (home filename : String) (pp : Option String)
    (pe : Bool) (now : UTCTime) (p contents e : String) (dflt : Json)
    (hfind : file_find fs home filename pp pe = .ok (some p))
    (hfindInv : file_find fs home INVENTORY_FILENAME pp true = .ok (some p))
    (hread : fs.lookupFile p = some contents)
    (hparse : jsonLoads contents = .error e) :
    load_from_json fs home filename pp pe = .error e ∧
    load_inventory fs home now pp dflt = .error e := by
  refine ⟨load_from_json_parse_error fs home filename pp pe p contents e hfind hread hparse, ?_⟩
  simp [load_inventory,
    load_from_json_parse_error fs home INVENTORY_FILENAME pp true p contents e hfindInv hread hparse]

theorem malformed_json_fatal_witness :
    (file_find fsBad "/root" INVENTORY_FILENAME none true =
       .ok (some "/etc/openstack_deploy/openstack_inventory.json") ∧
     fsBad.lookupFile "/etc/openstack_deploy/openstack_inventory.json" = some "\x7b" ∧
     jsonLoads "\x7b" = .error "Expecting property name") ∧
    (load_from_json fsBad "/root" INVENTORY_FILENAME none true =
       .error "Expecting property name" ∧
     load_inventory fsBad "/root" t0 none invDefault = .error "Expecting property name") :=
  ⟨⟨rfl, rfl, rfl⟩,
   malformed_json_fatal fsBad "/root" INVENTORY_FILENAME none true t0
     "/etc/openstack_deploy/openstack_inventory.json" "\x7b" "Expecting property name"
     invDefault rfl rfl rfl rfl⟩

/-- C6: `load_from_json` in non-fatal mode with no candidate file returns
the sentinel pair (Python `(False, False)`, embedded as `(none, none)`);
when a file is resolved and parses, it returns the parsed mapping paired
with the fully resolved path that was read. -/
theorem load_from_json_pairs (fs fs2 : FS) (home filename : String)
    (pp : Option String) (pe : Bool) (p contents : String) (d : Json)
    (habs : ∀ q ∈ _get_search_paths home pp (some filename), os_isfile fs q = false)
    (hfind : file_find fs2 home filename pp pe = .ok (some p))
    (hread : fs2.lookupFile p = some contents)
    (hparse : jsonLoads contents = .ok d) :
    load_from_json fs home filename pp true = .ok (none, none) ∧
    load_from_json fs2 home filename pp pe = .ok (some d, some p) :=
  ⟨load_from_json_absent fs home filename pp habs,
   load_from_json_found fs2 home filename pp pe p contents d hfind hread hparse⟩

theorem load_from_json_pairs_witness :
    ((∀ q ∈ _get_search_paths "/root" (some "/root/od") (some INVENTORY_FILENAME),
       os_isfile fsEmpty q = false) ∧
     file_find fsStd "/root" INVENTORY_FILENAME (some "/root/od") false =
       .ok (some "/etc/openstack_deploy/openstack_inventory.json") ∧
     fsStd.lookupFile "/etc/openstack_deploy/openstack_inventory.json" =
       some "\x7b\"x\": 1\x7d" ∧
     jsonLoads "\x7b\"x\": 1\x7d" = .ok (.obj [("x", .num 1)])) ∧
    (load_from_json fsEmpty "/root" INVENTORY_FILENAME (some "/root/od") true =
       .ok (none, none) ∧
     load_from_json fsStd "/root" INVENTORY_FILENAME (some "/root/od") false =
       .ok (some (.obj [("x", .num 1)]),
            some "/etc/openstack_deploy/openstack_inventory.json")) :=
  ⟨⟨by decide, rfl, rfl, rfl⟩,
   load_from_json_pairs fsEmpty fsStd "/root" INVENTORY_FILENAME (some "/root/od") false
     "/etc/openstack_deploy/openstack_inventory.json" "\x7b\"x\": 1\x7d"
     (.obj [("x", .num 1)]) (by decide) rfl rfl rfl⟩

/-- C9: a backup only reads the source inventory file: after `_make_backup`
succeeds, the regular-file store is unchanged (the source file still exists
with the same contents), and the only effect is appending exactly one entry
to the tar archive in the backup directory. -/
theorem make_backup_frame (fs : FS) (now : UTCTime) (bp src contents : String)
    (hread : fs.lookupFile src = some contents) :
    ∃ fs2, _make_backup fs now (some bp) src = .ok fs2 ∧
      fs2.files = fs.files ∧
      fs2.lookupFile src = some contents ∧
      fs2.tarEntries (pathJoin bp backupTarName) =
        fs.tarEntries (pathJoin bp backupTarName) ++
          [⟨_get_backup_name now (os_basename src), contents⟩] ∧
      ∀ q, q ≠ pathJoin bp backupTarName → fs2.tarEntries q = fs.tarEntries q := by
  refine ⟨_, make_backup_ok fs now bp src contents hread, rfl, hread,
    tarEntries_setTarEntries_self fs _ _, ?_⟩
  intro q hq
  exact tarEntries_setTarEntries_ne fs _ q _ hq

theorem make_backup_frame_witness :
    fsStd.lookupFile "/etc/openstack_deploy/openstack_inventory.json" =
      some "\x7b\"x\": 1\x7d" ∧
    (∃ fs2, _make_backup fsStd t0 (some "/root/od")
        "/etc/openstack_deploy/openstack_inventory.json" = .ok fs2 ∧
      fs2.files = fsStd.files ∧
      fs2.lookupFile "/etc/openstack_deploy/openstack_inventory.json" =
        some "\x7b\"x\": 1\x7d" ∧
      fs2.tarEntries (pathJoin "/root/od" backupTarName) =
        fsStd.tarEntries (pathJoin "/root/od" backupTarName) ++
          [⟨_get_backup_name t0
              (os_basename "/etc/openstack_deploy/openstack_inventory.json"),
            "\x7b\"x\": 1\x7d"⟩] ∧
      ∀ q, q ≠ pathJoin "/root/od" backupTarName →
        fs2.tarEntries q = fsStd.tarEntries q) :=
  ⟨rfl, make_backup_frame fsStd t0 "/root/od"
    "/etc/openstack_deploy/openstack_inventory.json" "\x7b\"x\": 1\x7d" rfl⟩

/-- C1 counterexample: the claim quantifies over *every* call with an
existing inventory file, but (a) with `preferred_path=None` and the file in
the standard directory, the mandated backup step evaluates
`os.path.join(None, ...)` and the call raises `TypeError` instead of
returning, and (b) a file whose document is the literal `false` defeats the
`is not False` guard: the call returns a copy of the default and adds no
backup entry. -/
theorem load_inventory_existing_cex :
    (os_isfile fsStd
        (pathJoin (pathJoin "/etc" "openstack_deploy") INVENTORY_FILENAME) = true ∧
     load_inventory fsStd "/root" t0 none invDefault =
       .error "TypeError: join() argument must be str, not NoneType") ∧
    (os_isfile fsFalse
        (pathJoin (pathJoin "/etc" "openstack_deploy") INVENTORY_FILENAME) = true ∧
     load_inventory fsFalse "/root" t0 (some "/root/od") invDefault =
       .ok (deepcopy invDefault, fsFalse)) :=
  ⟨⟨rfl, rfl⟩, ⟨rfl, rfl⟩⟩

/-- C1 (amended): for every call to `load_inventory` that is given a
preferred path, where an inventory file resolves at one of the search paths
and its contents parse as a JSON document other than the literal `false`,
the call returns the parsed contents of that file and adds exactly one new
entry to the backup tar archive (placed under the preferred path), the
entry being named `<basename>-<UTC YYYYMMDD_HHMMSS>.json`. -/
theorem load_inventory_existing_backup (fs : FS) (home pp : String)
    (now : UTCTime) (p contents : String) (d dflt : Json)
    (hfind : file_find fs home INVENTORY_FILENAME (some pp) true = .ok (some p))
    (hread : fs.lookupFile p = some contents)
    (hparse : jsonLoads contents = .ok d)
    (hnf : pyIsFalse d = false) :
    load_inventory fs home now (some pp) dflt =
      .ok (d, fs.setTarEntries (pathJoin pp backupTarName)
        (fs.tarEntries (pathJoin pp backupTarName) ++
          [⟨_get_backup_name now (os_basename p), contents⟩])) ∧
    (fs.setTarEntries (pathJoin pp backupTarName)
        (fs.tarEntries (pathJoin pp backupTarName) ++
          [⟨_get_backup_name now (os_basename p), contents⟩])).files = fs.files ∧
    (fs.setTarEntries (pathJoin pp backupTarName)
        (fs.tarEntries (pathJoin pp backupTarName) ++
          [⟨_get_backup_name now (os_basename p), contents⟩])).tarEntries
        (pathJoin pp backupTarName) =
      fs.tarEntries (pathJoin pp backupTarName) ++
        [⟨_get_backup_name now (os_basename p), contents⟩] ∧
    (∀ q, q ≠ pathJoin pp backupTarName →
      (fs.setTarEntries (pathJoin pp backupTarName)
        (fs.tarEntries (pathJoin pp backupTarName) ++
          [⟨_get_backup_name now (os_basename p), contents⟩])).tarEntries q =
        fs.tarEntries q) ∧
    _get_backup_name now (os_basename p) =
      os_basename p ++ "-" ++ strftimeCompact now ++ ".json" := by
  refine ⟨?_, rfl, tarEntries_setTarEntries_self fs _ _,
    fun q hq => tarEntries_setTarEntries_ne fs _ q _ hq, rfl⟩
  simp [load_inventory,
    load_from_json_found fs home INVENTORY_FILENAME (some pp) true p contents d hfind hread hparse,
    hnf, make_backup_ok fs now pp p contents hread]

theorem load_inventory_existing_backup_witness :
    (file_find fsPref "/root" INVENTORY_FILENAME (some "/root/od") true =
       .ok (some "/root/od/openstack_inventory.json") ∧
     fsPref.lookupFile "/root/od/openstack_inventory.json" = some "\x7b\"x\": 1\x7d" ∧
     jsonLoads "\x7b\"x\": 1\x7d" = .ok (.obj [("x", .num 1)]) ∧
     pyIsFalse (.obj [("x", .num 1)]) = false) ∧
    (load_inventory fsPref "/root" t0 (some "/root/od") invDefault =
       .ok (.obj [("x", .num 1)],
         fsPref.setTarEntries (pathJoin "/root/od" backupTarName)
           (fsPref.tarEntries (pathJoin "/root/od" backupTarName) ++
             [⟨_get_backup_name t0 (os_basename "/root/od/openstack_inventory.json"),
               "\x7b\"x\": 1\x7d"⟩])) ∧
     _get_backup_name t0 (os_basename "/root/od/openstack_inventory.json") =
       os_basename "/root/od/openstack_inventory.json" ++ "-" ++
         strftimeCompact t0 ++ ".json") := by
  have h := load_inventory_existing_backup fsPref "/root" "/root/od" t0
    "/root/od/openstack_inventory.json" "\x7b\"x\": 1\x7d" (.obj [("x", .num 1)])
    invDefault rfl rfl rfl rfl
  exact ⟨⟨rfl, rfl, rfl, rfl⟩, h.1, h.2.2.2.2⟩

/-- C7 counterexample: the claim says that when the save path equals the
well-known filename the lookup runs "in non-strict or strict mode per the
caller's choice", but `save_inventory` takes no mode argument and always
calls `file_find` with its strict default: saving to the literal filename
with no existing inventory is fatal, and no caller choice can avoid it. -/
theorem save_inventory_strict_cex :
    save_inventory fsEmpty "/root" "\x7b\x7d" INVENTORY_FILENAME =
      .error ("No file found at: " ++
        pyListRepr [pathJoin (pathJoin "/etc" "openstack_deploy") INVENTORY_FILENAME]) :=
  rfl

/-- C7 (amended): for every call to `save_inventory`: if the given save
path equals the well-known inventory filename literally, the target file is
resolved via the search-path lookup in strict mode with no preferred
directory (so an unresolvable target is fatal); otherwise the target is the
given directory joined with the well-known filename; the content is then
written, overwriting any existing file in full. -/
theorem save_inventory_resolution (fsA fsB fsC : FS)
    (home dataA dataB dataC save_path p : String)
    (hfindA : file_find fsA home INVENTORY_FILENAME none false = .ok (some p))
    (habsB : ∀ q ∈ _get_search_paths home none (some INVENTORY_FILENAME),
      os_isfile fsB q = false)
    (hne : save_path ≠ INVENTORY_FILENAME) :
    save_inventory fsA home dataA INVENTORY_FILENAME = .ok (fsA.setFile p dataA) ∧
    (fsA.setFile p dataA).lookupFile p = some dataA ∧
    save_inventory fsB home dataB INVENTORY_FILENAME =
      .error ("No file found at: " ++
        pyListRepr (_get_search_paths home none (some INVENTORY_FILENAME))) ∧
    save_inventory fsC home dataC save_path =
      .ok (fsC.setFile (pathJoin save_path INVENTORY_FILENAME) dataC) ∧
    (fsC.setFile (pathJoin save_path INVENTORY_FILENAME) dataC).lookupFile
      (pathJoin save_path INVENTORY_FILENAME) = some dataC := by
  refine ⟨?_, lookupFile_setFile_self fsA p dataA, ?_, ?_,
    lookupFile_setFile_self fsC _ dataC⟩
  · simp [save_inventory, hfindA]
  · simp [save_inventory, file_find_absent_strict fsB home INVENTORY_FILENAME none habsB]
  · simp [save_inventory, Ne.symm hne]

theorem save_inventory_resolution_witness :
    (file_find fsStd "/root" INVENTORY_FILENAME none false =
       .ok (some "/etc/openstack_deploy/openstack_inventory.json") ∧
     (∀ q ∈ _get_search_paths "/root" none (some INVENTORY_FILENAME),
       os_isfile fsEmpty q = false) ∧
     "/root/od" ≠ INVENTORY_FILENAME) ∧
    (save_inventory fsStd "/root" "newdata" INVENTORY_FILENAME =
       .ok (fsStd.setFile "/etc/openstack_deploy/openstack_inventory.json" "newdata") ∧
     (fsStd.setFile "/etc/openstack_deploy/openstack_inventory.json" "newdata").lookupFile
       "/etc/openstack_deploy/openstack_inventory.json" = some "newdata" ∧
     save_inventory fsEmpty "/root" "newdata" INVENTORY_FILENAME =
       .error ("No file found at: " ++
         pyListRepr (_get_search_paths "/root" none (some INVENTORY_FILENAME))) ∧
     save_inventory fsEmpty "/root" "newdata" "/root/od" =
       .ok (fsEmpty.setFile (pathJoin "/root/od" INVENTORY_FILENAME) "newdata") ∧
     (fsEmpty.setFile (pathJoin "/root/od" INVENTORY_FILENAME) "newdata").lookupFile
       (pathJoin "/root/od" INVENTORY_FILENAME) = some "newdata") :=
  ⟨⟨rfl, by decide, by decide⟩,
   save_inventory_resolution fsStd fsEmpty fsEmpty "/root" "newdata" "newdata" "newdata"
     "/root/od" "/etc/openstack_deploy/openstack_inventory.json" rfl (by decide) (by decide)⟩

/-- C8: saving serialized JSON `data` into directory `dir` and then loading
the well-known filename so that it resolves to that same file yields the
mapping obtained by decoding `data` as JSON, paired with that file's path
(save/load round-trip). -/
theorem save_load_roundtrip (fs : FS) (home data dir : String) (d : Json)
    (pp : Option String) (pe : Bool)
    (hne : dir ≠ INVENTORY_FILENAME)
    (hdec : jsonLoads data = .ok d)
    (hfind : file_find (fs.setFile (pathJoin dir INVENTORY_FILENAME) data) home
        INVENTORY_FILENAME pp pe = .ok (some (pathJoin dir INVENTORY_FILENAME))) :
    save_inventory fs home data dir =
      .ok (fs.setFile (pathJoin dir INVENTORY_FILENAME) data) ∧
    load_from_json (fs.setFile (pathJoin dir INVENTORY_FILENAME) data) home
      INVENTORY_FILENAME pp pe =
      .ok (some d, some (pathJoin dir INVENTORY_FILENAME)) := by
  constructor
  · simp [save_inventory, Ne.symm hne]
  · exact load_from_json_found _ home INVENTORY_FILENAME pp pe _ data d hfind
      (lookupFile_setFile_self fs _ data) hdec

theorem save_load_roundtrip_witness :
    ("/root/od" ≠ INVENTORY_FILENAME ∧
     jsonLoads "\x7b\"x\": 1\x7d" = .ok (.obj [("x", .num 1)]) ∧
     file_find (fsEmpty.setFile (pathJoin "/root/od" INVENTORY_FILENAME) "\x7b\"x\": 1\x7d")
       "/root" INVENTORY_FILENAME (some "/root/od") true =
       .ok (some (pathJoin "/root/od" INVENTORY_FILENAME))) ∧
    (save_inventory fsEmpty "/root" "\x7b\"x\": 1\x7d" "/root/od" =
       .ok (fsEmpty.setFile (pathJoin "/root/od" INVENTORY_FILENAME) "\x7b\"x\": 1\x7d") ∧
     load_from_json (fsEmpty.setFile (pathJoin "/root/od" INVENTORY_FILENAME) "\x7b\"x\": 1\x7d")
       "/root" INVENTORY_FILENAME (some "/root/od") true =
       .ok (some (.obj [("x", .num 1)]), some (pathJoin "/root/od" INVENTORY_FILENAME))) :=
  ⟨⟨by decide, rfl, rfl⟩,
   save_load_roundtrip fsEmpty "/root" "\x7b\"x\": 1\x7d" "/root/od" (.obj [("x", .num 1)])
     (some "/root/od") true (by decide) rfl rfl⟩

/-- C10: the mandated backup step of `load_inventory` joins `preferred_path`
itself with the archive name, so the backup archive always lands under the
preferred path even when the loaded inventory came from the standard
directory; and with `preferred_path` omitted (`None`) the join raises
`TypeError`, so a load of an existing standard-directory inventory cannot
complete successfully without a preferred path. -/
theorem load_inventory_backup_under_preferred (fs : FS) (home p : String)
    (now : UTCTime) (dflt d : Json) (contents : String)
    (hstd : fs.lookupFile
        (pathJoin (pathJoin "/etc" "openstack_deploy") INVENTORY_FILENAME) = some contents)
    (hparse : jsonLoads contents = .ok d)
    (hnf : pyIsFalse d = false)
    (hprefAbsent : os_isfile fs (pathJoin (expanduser home p) INVENTORY_FILENAME) = false) :
    load_inventory fs home now none dflt =
      .error "TypeError: join() argument must be str, not NoneType" ∧
    load_inventory fs home now (some p) dflt =
      .ok (d, fs.setTarEntries (pathJoin p backupTarName)
        (fs.tarEntries (pathJoin p backupTarName) ++
          [⟨_get_backup_name now
              (os_basename (pathJoin (pathJoin "/etc" "openstack_deploy") INVENTORY_FILENAME)),
            contents⟩])) := by
  have hisfile : os_isfile fs
      (pathJoin (pathJoin "/etc" "openstack_deploy") INVENTORY_FILENAME) = true := by
    simp [os_isfile, hstd]
  have hfindNone : file_find fs home INVENTORY_FILENAME none true =
      .ok (some (pathJoin (pathJoin "/etc" "openstack_deploy") INVENTORY_FILENAME)) := by
    simp [file_find, search_paths_none_inv, findFirstFile, hisfile]
  have hfindSome : file_find fs home INVENTORY_FILENAME (some p) true =
      .ok (some (pathJoin (pathJoin "/etc" "openstack_deploy") INVENTORY_FILENAME)) := by
    simp [file_find, search_paths_some_inv, findFirstFile, hprefAbsent, hisfile]
  constructor
  · simp [load_inventory,
      load_from_json_found fs home INVENTORY_FILENAME none true _ contents d hfindNone hstd hparse,
      hnf, _make_backup]
  · simp [load_inventory,
      load_from_json_found fs home INVENTORY_FILENAME (some p) true _ contents d hfindSome hstd hparse,
      hnf, make_backup_ok fs now p _ contents hstd]

theorem load_inventory_backup_under_preferred_witness :
    (fsStd.lookupFile
       (pathJoin (pathJoin "/etc" "openstack_deploy") INVENTORY_FILENAME) =
       some "\x7b\"x\": 1\x7d" ∧
     jsonLoads "\x7b\"x\": 1\x7d" = .ok (.obj [("x", .num 1)]) ∧
     pyIsFalse (.obj [("x", .num 1)]) = false ∧
     os_isfile fsStd (pathJoin (expanduser "/root" "/root/od") INVENTORY_FILENAME) = false) ∧
    (load_inventory fsStd "/root" t0 none invDefault =
       .error "TypeError: join() argument must be str, not NoneType" ∧
     load_inventory fsStd "/root" t0 (some "/root/od") invDefault =
       .ok (.obj [("x", .num 1)],
         fsStd.setTarEntries (pathJoin "/root/od" backupTarName)
           (fsStd.tarEntries (pathJoin "/root/od" backupTarName) ++
             [⟨_get_backup_name t0
                 (os_basename (pathJoin (pathJoin "/etc" "openstack_deploy") INVENTORY_FILENAME)),
               "\x7b\"x\": 1\x7d"⟩]))) :=
  ⟨⟨rfl, rfl, rfl, rfl⟩,
   load_inventory_backup_under_preferred fsStd "/root" "/root/od" t0 invDefault
     (.obj [("x", .num 1)]) "\x7b\"x\": 1\x7d" rfl rfl rfl rfl⟩

/-- C2: when no inventory file exists at any search path, `load_inventory`
returns a deep copy of the default skeleton — provably equal to it — and
the filesystem comes back unchanged, so no backup archive entry is created.
Independence of the copy is stated on the object heap: `deepcopyH` yields a
root with the same deep value whose reachable addresses are all fresh, and
mutating any of them leaves the deep value of the original default
untouched. -/
theorem load_inventory_default_skeleton (fs : FS) (home : String) (now : UTCTime)
    (pp : Option String) (dflt : Json)
    (h : Heap) (a fuel : Nat) (h2 : Heap) (b : Nat)
    (habs : ∀ q ∈ _get_search_paths home pp (some INVENTORY_FILENAME),
      os_isfile fs q = false)
    (hwf : h.WFb = true) (ha : a < h.next)
    (hcopy : deepcopyH fuel h a = some (h2, b)) :
    load_inventory fs home now pp dflt = .ok (deepcopy dflt, fs) ∧
    deepcopy dflt = dflt ∧
    deepVal fuel h2 b = deepVal fuel h a ∧
    (∀ fr c, c ∈ reachAddrs fr h2 b →
      h.next ≤ c ∧ ∀ o fm, deepVal fm (h2.set c o) a = deepVal fm h a) := by
  have hb := Heap.WFb_bounded hwf
  have spec := (deepcopy_spec fuel).1 h a h2 b hb hcopy
  refine ⟨?_, deepcopy_eq dflt, spec.val_eq, ?_⟩
  · simp [load_inventory, load_from_json_absent fs home INVENTORY_FILENAME pp habs]
  · intro fr c hc
    have hcge : h.next ≤ c :=
      reach_fresh fr h2 h.next b spec.fresh_root spec.fresh_refs c hc
    refine ⟨hcge, ?_⟩
    intro o fm
    refine deepVal_agree fm h (h2.set c o) h.next a (fun e he => ?_) hb ha
    rw [Heap.lookup_set_ne h2 c e o (by omega), spec.pres e he]

theorem load_inventory_default_skeleton_witness :
    ((∀ q ∈ _get_search_paths "/root" (some "/root/od") (some INVENTORY_FILENAME),
       os_isfile fsEmpty q = false) ∧
     heap0.WFb = true ∧ 0 < heap0.next ∧
     deepcopyH 1 heap0 0 = some (⟨[(1, .dict []), (0, .dict [])], 2⟩, 1)) ∧
    (load_inventory fsEmpty "/root" t0 (some "/root/od") invDefault =
       .ok (deepcopy invDefault, fsEmpty) ∧
     deepcopy invDefault = invDefault ∧
     deepVal 1 ⟨[(1, .dict []), (0, .dict [])], 2⟩ 1 = deepVal 1 heap0 0 ∧
     (∀ fr c, c ∈ reachAddrs fr (⟨[(1, .dict []), (0, .dict [])], 2⟩ : Heap) 1 →
       heap0.next ≤ c ∧
       ∀ o fm, deepVal fm ((⟨[(1, .dict []), (0, .dict [])], 2⟩ : Heap).set c o) 0 =
         deepVal fm heap0 0)) :=
  ⟨⟨by decide, rfl, by decide, rfl⟩,
   load_inventory_default_skeleton fsEmpty "/root" t0 (some "/root/od") invDefault
     heap0 0 1 ⟨[(1, .dict []), (0, .dict [])], 2⟩ 1 (by decide) rfl (by decide) rfl⟩
